import Mathlib

/-!
# Verification of the epub-translator specification against its sources

A shallow embedding, in Lean, of the parts of the `epub-translator`
repository that the specification talks about:

* the DOM surface (`src/xhtml/mod.rs`): text-node enumeration and the
  post-serialization textual fix-ups;
* the archive layer (`src/epub/mod.rs`): the options used when re-zipping a
  working directory into an EPUB;
* the translation client (`src/deepl/mod.rs`): how a `/translate` response is
  turned into a worker outcome;
* the credential pool (`src/main.rs`): the residual-capacity filter and the
  weighted dispatch vector;
* the translation pipeline (`src/lib.rs`): the writer loop of
  `translate_folder`, with its retry accounting and exit condition.

Rust `Vec` values become `List`, machine integers become `Nat` (no overflow is
reachable in the modelled fragments), `Rc<Node>` handles become tree values
addressed by DFS paths where occurrence identity matters, and every Rust
expression that can panic (out-of-bounds indexing) is modelled by `Option`,
with `none` standing for the panic.
-/

namespace EpubTranslator

/-! ## DOM model (`markup5ever_rcdom`)

`NodeData` has six constructors (`Document`, `Doctype`, `Text`, `Comment`,
`Element`, `ProcessingInstruction`); `get_text_nodes` distinguishes only text
nodes, elements (by local name), and "everything else", so the model keeps a
text leaf, an element with its tag name, and a catch-all constructor, each
non-text node carrying its `children` vector. -/

inductive TNode where
  | text (contents : String)
  | element (name : String) (children : List TNode)
  | other (children : List TNode)

/-- The `children` vector of a node (a text leaf has none in `rcdom`). -/
def childrenOf : TNode → List TNode
  | .text _ => []
  | .element _ cs => cs
  | .other cs => cs

/-- Whether a node is an `Element` whose local name is `"style"`, the guard
`name.local.as_ref() == "style"` of `get_text_nodes`. -/
def isStyle : TNode → Bool
  | .element name _ => name == "style"
  | _ => false

mutual

/-- `xhtml::get_text_nodes`: a text node yields itself; a `style` element is
skipped wholesale (children included); any other node recurses into its
children, concatenating the results in order. -/
def getTextNodes : TNode → List TNode
  | .text s => [.text s]
  | .element name cs => if name == "style" then [] else getTextNodesList cs
  | .other cs => getTextNodesList cs

/-- The `for child in node.children` loop of `get_text_nodes`, extending the
accumulator with each child's text nodes. -/
def getTextNodesList : List TNode → List TNode
  | [] => []
  | c :: cs => getTextNodes c ++ getTextNodesList cs

end

mutual

/-- `get_text_nodes` instrumented to return, instead of the pushed handle, the
DFS path (list of child indices from the given root) at which each pushed node
occurs.  The traversal and the skip of `style` elements are exactly those of
`getTextNodes`; only the bookkeeping differs, so that occurrences — not node
values — can be reasoned about. -/
def textPaths : TNode → List (List Nat)
  | .text _ => [[]]
  | .element name cs => if name == "style" then [] else textPathsList 0 cs
  | .other cs => textPathsList 0 cs

/-- Paths of the text nodes found in a children suffix whose first element has
index `i` in the parent. -/
def textPathsList : Nat → List TNode → List (List Nat)
  | _, [] => []
  | i, c :: cs => (textPaths c).map (fun p => i :: p) ++ textPathsList (i + 1) cs

end

/-- The node reached from `t` by following a list of child indices. -/
def nodeAt : List Nat → TNode → Option TNode
  | [], t => some t
  | i :: p, t =>
    match (childrenOf t).get? i with
    | some c => nodeAt p c
    | none => none

/-! ## Translation pipeline: the writer loop of `translate_folder` (`src/lib.rs`)

The two message types of `lib.rs` and the writer loop.  `translate_folder`
flattens the text nodes of all documents into `nodes`, snapshots their
contents into `texts_enumerated`, allocates the retry vector, sends the
initial fan-out, and then drains the results channel.  The loop body and its
exit condition are modelled verbatim; the channel is modelled by the list of
`TranslationResult` messages the writer will receive, in order. -/

/-- `TranslationRequest { id, text }`. -/
structure TranslationRequest where
  id : Nat
  text : String

/-- `TranslationResult { id, translated_text }`; `none` is the `Failed`
outcome. -/
structure TranslationResult where
  id : Nat
  translated_text : Option String

/-- `let mut retries: Vec<usize> = vec![0, total_nodes];` — the two-element
vector `[0, total_nodes]` (the `vec!` list macro, not `vec![0; total_nodes]`). -/
def retriesInit (total_nodes : Nat) : List Nat := [0, total_nodes]

/-- The snapshot `texts_enumerated`: the contents of each text node, and the
`Arc::new(String::new())` fallback for a node that is not a text node. -/
def textsEnumerated (nodes : List TNode) : List String :=
  nodes.map (fun n =>
    match n with
    | .text contents => contents
    | _ => "")

/-- `MAX_ATTEMPTS` (`max_retries` in `translate_folder`). -/
def maxRetries : Nat := 4

/-- The writer's resources: the flattened node vector (mutated in place), the
immutable snapshot, the retry vector, and the `completed` counter. -/
structure WriterState where
  nodes : List TNode
  texts : List String
  retries : List Nat
  completed : Nat

/-- One iteration of the writer loop body on a received `TranslationResult`:

* `Some(translated_text)` — if `nodes[id]` is a text node, overwrite its
  contents and increment `completed`; if it is some other node kind, nothing
  happens (the `if let` has no `else`); `nodes[id]` out of bounds panics;
* `None` — read `retries[id]` (panic if out of bounds); if it is below
  `max_retries`, increment it and resend a fresh request carrying
  `texts_enumerated[id]` (panic if out of bounds); otherwise increment
  `completed`.

Returns `none` for a panic, otherwise the new state and the list of resent
requests (channel sends are modelled as succeeding). -/
def writerStep (maxR : Nat) (st : WriterState) (r : TranslationResult) :
    Option (WriterState × List TranslationRequest) :=
  match r.translated_text with
  | some s =>
    match st.nodes.get? r.id with
    | some (.text _) =>
      some ({ st with nodes := st.nodes.set r.id (.text s),
                      completed := st.completed + 1 }, [])
    | some _ => some (st, [])
    | none => none
  | none =>
    match st.retries.get? r.id with
    | none => none
    | some k =>
      if k < maxR then
        match st.texts.get? r.id with
        | none => none
        | some t =>
          some ({ st with retries := st.retries.set r.id (k + 1) },
                [⟨r.id, t⟩])
      else
        some ({ st with completed := st.completed + 1 }, [])

/-- How a run of the writer loop ends. -/
inductive WriterResult where
  | panicked
  | exited (st : WriterState)
  | blocked (st : WriterState)

/-- The writer loop `while let Some(result) = rx_writer.recv().await`, driven
by the finite list of results that will ever be delivered: after each
processed result the loop breaks iff `completed == total_nodes`; if the list
runs out first, the `recv()` blocks forever (the senders are never all
dropped while the loop runs), modelled as `blocked`; a panic in the body ends
the run as `panicked`. -/
def writerRun (maxR total_nodes : Nat) : WriterState → List TranslationResult → WriterResult
  | st, [] => .blocked st
  | st, r :: rs =>
    match writerStep maxR st r with
    | none => .panicked
    | some (st', _) =>
      if st'.completed = total_nodes then .exited st' else writerRun maxR total_nodes st' rs

/-! ## Archive layer (`src/epub/mod.rs`) -/

/-- `zip::CompressionMethod`, restricted to the two methods the spec talks
about. -/
inductive CompressionMethod where
  | stored
  | deflated
deriving DecidableEq

/-- The fields of `zip::write::FileOptions` that `zip_folder_to_epub` sets. -/
structure ZipFileOptions where
  compression : CompressionMethod
  unixPermissions : Nat
deriving DecidableEq

/-- The single `options` value built in `zip_folder_to_epub`:
`FileOptions::default().compression_method(Deflated).unix_permissions(0o755)`. -/
def epubZipOptions : ZipFileOptions := ⟨.deflated, 0o755⟩

/-- One entry yielded by the `WalkDir` traversal of the working directory:
its path relative to the folder root and whether it is a file. -/
structure WalkEntry where
  name : String
  isFile : Bool

/-- One entry written to the output archive. -/
structure ZipEntry where
  name : String
  isDirectory : Bool
  options : ZipFileOptions
deriving DecidableEq

/-- `epub::zip_folder_to_epub`, modelled as the list of archive entries in the
order they are written: the directory walk is traversed in order; every file
is written with `options` (= `epubZipOptions`); every directory with a
non-empty relative name is added with the same `options`; the root (empty
name) is skipped.  No entry is reordered and no entry gets different
options. -/
def zipFolderToEpub (walk : List WalkEntry) : List ZipEntry :=
  walk.filterMap (fun e =>
    if e.isFile then some ⟨e.name, false, epubZipOptions⟩
    else if e.name = "" then none
    else some ⟨e.name, true, epubZipOptions⟩)

/-! ## Translation client (`src/deepl/mod.rs`, `src/deepl/models.rs`) -/

/-- `models::Translation` (response item). -/
structure Translation where
  detected_source_language : String
  text : String
deriving DecidableEq

/-- `models::TranslationResponse`. -/
structure TranslationResponse where
  translations : List Translation
deriving DecidableEq

/-- The observable result of `request.send().await?.json().await?` in
`deepl::translate`: either one of the two `?` operators propagates an error
(transport failure, or a body that does not decode as `TranslationResponse`,
which also covers non-2xx DeepL error bodies), or a decoded response. -/
inductive FetchOutcome where
  | fetchErr
  | decoded (r : TranslationResponse)

/-- The rest of `deepl::translate` after the HTTP exchange: an error from `?`
is returned as `Err`; on a decoded response the function evaluates
`response.translations[0].text`, where indexing an empty `translations` vector
panics (modelled `none`). -/
def translateExtract : FetchOutcome → Option (Except Unit String)
  | .fetchErr => some (.error ())
  | .decoded r => (r.translations.get? 0).map (fun tr => Except.ok tr.text)

/-- `lib::translation_task` from the point of view of the writer: the message
the task puts on the results channel for a given fetch outcome, or `none` when
the task panics and no message is ever sent.  `Ok` becomes a
`TranslationResult` carrying `Some(text)`, `Err` becomes one carrying `None`
(the `Failed` outcome). -/
def translationTaskOutcome (id : Nat) (f : FetchOutcome) : Option TranslationResult :=
  match translateExtract f with
  | none => none
  | some (.ok s) => some ⟨id, some s⟩
  | some (.error _) => some ⟨id, none⟩

/-! ## Credential pool (`src/main.rs`) -/

/-- A discovered credential: its key paired with its residual capacity
`character_limit - character_count`. -/
structure Credential where
  key : String
  capacity : Nat
deriving DecidableEq

/-- The retention filter of `main`:
`.filter(|(_, capacity)| *capacity > 20000)` applied to the discovered
credentials. -/
def retainCredentials (creds : List Credential) : List Credential :=
  creds.filter (fun c => 20000 < c.capacity)

/-- `total_capacity`: the fold summing the residual capacities of the retained
credentials. -/
def totalCapacity (caps : List Nat) : Nat := caps.foldl (· + ·) 0

/-- The per-credential copy count:
`((*capacity as f64 / total_capacity as f64) * 100.0).round() as usize`,
with the real arithmetic modelled exactly over `ℚ`. -/
def proportionOf (cap total : Nat) : Nat :=
  (round ((cap : ℚ) / (total : ℚ) * 100)).toNat

/-- The `for (configuration, capacity) in …` loop that builds
`balanced_configurations`: for the credential at position `i` (a handle is an
`Arc` clone of the configuration at that position, identified here by the
position itself), if its capacity is positive, push `proportionOf` copies of
its handle; the copies of successive credentials are concatenated in order. -/
def balancedFrom (total : Nat) : Nat → List Nat → List Nat
  | _, [] => []
  | i, cap :: rest =>
    (if 0 < cap then List.replicate (proportionOf cap total) i else []) ++
      balancedFrom total (i + 1) rest

/-- The weighted dispatch vector before the shuffle, built from the capacities
of the retained credentials. -/
def balancedVector (caps : List Nat) : List Nat :=
  balancedFrom (totalCapacity caps) 0 caps

/-- The dispatcher's credential choice in `run_translator`:
`let config_index = request.id % configuration_length;`. -/
def assignedConfigurationIndex (poolLen id : Nat) : Nat := id % poolLen

/-! ## XHTML serializer fix-ups (`src/xhtml/mod.rs`)

`serialize_document_to_string` applies three `Regex::replace_all` passes to
the serializer output, and `get_document_node` applies one pre-parse rewrite
to the input.  Each of the four regexes has the shape
`LITERAL₁ · [^>]*? · LITERAL₂`, where the lazy `[^>]*?` group, being forced by
the literal that follows it, deterministically matches the run of
non-`>` characters from the current position to the first `>`.  The
matchers below implement exactly these matches at the head of a character
list, and `replaceAll` implements `replace_all`: scan left to right, on a
match emit the replacement and resume after the matched text, otherwise emit
the current character and advance by one. -/

/-- Consume the literal pattern `p` from the front of `s`. -/
def dropLit : List Char → List Char → Option (List Char)
  | [], s => some s
  | _ :: _, [] => none
  | p :: ps, c :: cs => if p = c then dropLit ps cs else none

/-- Split `s` at its first `'>'`: returns the (possibly empty) run of
non-`>` characters and the rest, which is either empty or starts with
`'>'`.  This is what the forced lazy group `[^>]*?` matches. -/
def splitGt : List Char → List Char × List Char
  | [] => ([], [])
  | c :: cs =>
    if c = '>' then ([], c :: cs)
    else
      let (run, rest) := splitGt cs
      (c :: run, rest)

/-- One match attempt, at the head of `s`, of `(<TAG[^>]*?)>` with replacement
`$1/>` (the void-element pass of `serialize_document_to_string`, applied for
each `TAG` in `self_closing_tags`).  On success, returns the replacement text
and the input remaining after the match. -/
def voidStep (tag : List Char) (s : List Char) : Option (List Char × List Char) :=
  match dropLit ('<' :: tag) s with
  | none => none
  | some afterTag =>
    match splitGt afterTag with
    | (run, '>' :: rest) => some ('<' :: tag ++ run ++ ['/', '>'], rest)
    | _ => none

/-- One match attempt of `&nbsp;` with replacement `"\u{00A0}"`. -/
def nbspStep (s : List Char) : Option (List Char × List Char) :=
  match dropLit "&nbsp;".data s with
  | some rest => some (['\u00A0'], rest)
  | none => none

/-- One match attempt of `<span([^>]*?)></span>` with replacement
`<span$1/>` (the empty-span pass of `serialize_document_to_string`). -/
def spanPairStep (s : List Char) : Option (List Char × List Char) :=
  match dropLit "<span".data s with
  | none => none
  | some afterTag =>
    match splitGt afterTag with
    | (run, '>' :: rest) =>
      match dropLit "</span>".data rest with
      | some rest2 => some ("<span".data ++ run ++ ['/', '>'], rest2)
      | none => none
    | _ => none

/-- One match attempt of `<span([^>]*?)/>` with replacement `<span$1></span>`
(the pre-parse rewrite of `get_document_node`).  The lazy group together with
the forced `/>` matches iff the first `>` after `<span` is immediately
preceded by `/`; the group is then the run up to that `/`. -/
def spanSelfCloseStep (s : List Char) : Option (List Char × List Char) :=
  match dropLit "<span".data s with
  | none => none
  | some afterTag =>
    match splitGt afterTag with
    | (run, '>' :: rest) =>
      match run.getLast? with
      | some '/' => some ("<span".data ++ run.dropLast ++ ">".data ++ "</span>".data, rest)
      | _ => none
    | _ => none

/-- `Regex::replace_all` driven by one of the matchers above.  The fuel only
bounds the recursion and always suffices: it starts at the input length and
every fired match consumes at least one character. -/
def replaceAllAux (step : List Char → Option (List Char × List Char)) :
    Nat → List Char → List Char
  | 0, s => s
  | _ + 1, [] => []
  | fuel + 1, c :: cs =>
    match step (c :: cs) with
    | some (repl, rest) => repl ++ replaceAllAux step fuel rest
    | none => c :: replaceAllAux step fuel cs

/-- `replace_all` on a character list. -/
def replaceAll (step : List Char → Option (List Char × List Char))
    (s : List Char) : List Char :=
  replaceAllAux step s.length s

/-- `self_closing_tags` in `serialize_document_to_string`. -/
def selfClosingTags : List String := ["br", "hr", "img", "input", "link", "meta"]

/-- The three post-serialization fix-up passes of
`serialize_document_to_string`, in source order: one void-element pass per tag
in `self_closing_tags`, then the `&nbsp;` pass, then the empty-span pass. -/
def serializeFixups (s : String) : String :=
  let afterVoid := selfClosingTags.foldl
    (fun acc tag => replaceAll (voidStep tag.data) acc) s.data
  let afterNbsp := replaceAll nbspStep afterVoid
  String.mk (replaceAll spanPairStep afterNbsp)

/-- The pre-parse rewrite of `get_document_node`: every self-closing span
`<span…/>` becomes the expanded pair `<span…></span>` before the HTML parser
runs. -/
def preParseSpanRewrite (s : String) : String :=
  String.mk (replaceAll spanSelfCloseStep s.data)

/-! ## Helper lemmas about the DOM traversal -/

/-- Strong induction on the size of a `TNode`: the induction scheme used below
for the nested tree recursion of `getTextNodes` and `textPaths`. -/
theorem tnodeStrongInd (P : TNode → Prop)
    (h : ∀ t, (∀ c, sizeOf c < sizeOf t → P c) → P t) : ∀ t, P t := by
  have key : ∀ k t, sizeOf t ≤ k → P t := by
    intro k
    induction k using Nat.strong_induction_on with
    | _ k ih =>
      intro t ht
      exact h t (fun c hc => ih (sizeOf c) (lt_of_lt_of_le hc ht) c le_rfl)
  exact fun t => key (sizeOf t) t le_rfl

/-- A child of an element is smaller than the element. -/
theorem sizeOf_child_element {name : String} {c : TNode} {cs : List TNode}
    (h : c ∈ cs) : sizeOf c < sizeOf (TNode.element name cs) := by
  have h1 := List.sizeOf_lt_of_mem h
  have h2 := TNode.element.sizeOf_spec name cs
  omega

/-- A child of a non-element, non-text node is smaller than the node. -/
theorem sizeOf_child_other {c : TNode} {cs : List TNode}
    (h : c ∈ cs) : sizeOf c < sizeOf (TNode.other cs) := by
  have h1 := List.sizeOf_lt_of_mem h
  have h2 := TNode.other.sizeOf_spec cs
  omega

/-- Membership in the children loop of `getTextNodes`. -/
theorem mem_getTextNodesList {n : TNode} : ∀ {cs : List TNode},
    n ∈ getTextNodesList cs ↔ ∃ c ∈ cs, n ∈ getTextNodes c := by
  intro cs
  induction cs with
  | nil => simp [getTextNodesList]
  | cons c cs ih =>
    rw [getTextNodesList, List.mem_append, ih, List.exists_mem_cons_iff]

/-- Every handle pushed by `get_text_nodes` is a text node. -/
theorem getTextNodes_isText : ∀ t : TNode, ∀ n ∈ getTextNodes t, ∃ s, n = TNode.text s := by
  refine tnodeStrongInd _ ?_
  intro t ih n hn
  match t with
  | .text s =>
    rw [getTextNodes, List.mem_singleton] at hn
    exact ⟨s, hn⟩
  | .element name cs =>
    rw [getTextNodes] at hn
    by_cases hname : (name == "style") = true
    · rw [if_pos hname] at hn
      simp at hn
    · rw [if_neg hname] at hn
      obtain ⟨c, hc, hnc⟩ := mem_getTextNodesList.mp hn
      exact ih c (sizeOf_child_element hc) n hnc
  | .other cs =>
    rw [getTextNodes] at hn
    obtain ⟨c, hc, hnc⟩ := mem_getTextNodesList.mp hn
    exact ih c (sizeOf_child_other hc) n hnc

/-- Decomposition of a path produced by the children loop of `textPaths`. -/
theorem mem_textPathsList {p : List Nat} : ∀ {i : Nat} {cs : List TNode},
    p ∈ textPathsList i cs →
      ∃ j c q, cs.get? j = some c ∧ p = (i + j) :: q ∧ q ∈ textPaths c := by
  intro i cs
  induction cs generalizing i with
  | nil => simp [textPathsList]
  | cons c cs ih =>
    intro hp
    rw [textPathsList, List.mem_append] at hp
    rcases hp with h | h
    · obtain ⟨q, hq, rfl⟩ := List.mem_map.mp h
      exact ⟨0, c, q, rfl, by rw [Nat.add_zero], hq⟩
    · obtain ⟨j, c', q, hj, hpq, hqc⟩ := ih h
      refine ⟨j + 1, c', q, by simpa using hj, ?_, hqc⟩
      rw [hpq]
      congr 1
      omega

/-- The central fact about the enumeration: every path it yields addresses a
text node that `getTextNodes` also returns, and no node along such a path —
root, intermediate, or the text node itself — is a `style` element. -/
theorem textPaths_spec : ∀ t : TNode, ∀ p ∈ textPaths t,
    (∃ s, nodeAt p t = some (TNode.text s) ∧ TNode.text s ∈ getTextNodes t) ∧
    (∀ q r m, p = q ++ r → nodeAt q t = some m → isStyle m = false) := by
  refine tnodeStrongInd _ ?_
  intro t ih p hp
  match t with
  | .text s =>
    rw [textPaths, List.mem_singleton] at hp
    subst hp
    refine ⟨⟨s, rfl, by rw [getTextNodes]; exact List.mem_singleton_self _⟩, ?_⟩
    intro q r m hqr hm
    rcases List.append_eq_nil.mp hqr.symm with ⟨rfl, rfl⟩
    rw [nodeAt] at hm
    cases hm
    rfl
  | .element name cs =>
    rw [textPaths] at hp
    by_cases hname : (name == "style") = true
    · rw [if_pos hname] at hp
      simp at hp
    · rw [if_neg hname] at hp
      obtain ⟨j, c, q0, hj, hpq, hq0⟩ := mem_textPathsList hp
      rw [Nat.zero_add] at hpq
      subst hpq
      obtain ⟨⟨s, hat, hmem⟩, hsafe⟩ := ih c (sizeOf_child_element (List.get?_mem hj)) q0 hq0
      constructor
      · refine ⟨s, ?_, ?_⟩
        · rw [nodeAt]
          show (match (childrenOf (TNode.element name cs)).get? j with
                | some c => nodeAt q0 c
                | none => none) = some (TNode.text s)
          rw [show childrenOf (TNode.element name cs) = cs from rfl, hj]
          exact hat
        · rw [getTextNodes, if_neg hname]
          exact mem_getTextNodesList.mpr ⟨c, List.get?_mem hj, hmem⟩
      · intro q r m hqr hm
        match q, hqr with
        | [], _ =>
          rw [nodeAt] at hm
          cases hm
          rw [isStyle]
          simpa using hname
        | j' :: q', hqr =>
          rw [List.cons_append] at hqr
          obtain ⟨rfl, hq0eq⟩ : j = j' ∧ q0 = q' ++ r := by
            have h1 := List.head_eq_of_cons_eq hqr
            have h2 := List.tail_eq_of_cons_eq hqr
            exact ⟨h1, h2⟩
          rw [nodeAt] at hm
          rw [show childrenOf (TNode.element name cs) = cs from rfl, hj] at hm
          exact hsafe q' r m hq0eq hm
  | .other cs =>
    rw [textPaths] at hp
    obtain ⟨j, c, q0, hj, hpq, hq0⟩ := mem_textPathsList hp
    rw [Nat.zero_add] at hpq
    subst hpq
    obtain ⟨⟨s, hat, hmem⟩, hsafe⟩ := ih c (sizeOf_child_other (List.get?_mem hj)) q0 hq0
    constructor
    · refine ⟨s, ?_, ?_⟩
      · rw [nodeAt]
        rw [show childrenOf (TNode.other cs) = cs from rfl, hj]
        exact hat
      · rw [getTextNodes]
        exact mem_getTextNodesList.mpr ⟨c, List.get?_mem hj, hmem⟩
    · intro q r m hqr hm
      match q, hqr with
      | [], _ =>
        rw [nodeAt] at hm
        cases hm
        rfl
      | j' :: q', hqr =>
        rw [List.cons_append] at hqr
        obtain ⟨rfl, hq0eq⟩ : j = j' ∧ q0 = q' ++ r := by
          have h1 := List.head_eq_of_cons_eq hqr
          have h2 := List.tail_eq_of_cons_eq hqr
          exact ⟨h1, h2⟩
        rw [nodeAt] at hm
        rw [show childrenOf (TNode.other cs) = cs from rfl, hj] at hm
        exact hsafe q' r m hq0eq hm

/-! ## Helper lemmas about the writer loop -/

/-- How many results in a delivery list are successful outcomes for id `i`. -/
def successCountFor (i : Nat) (rs : List TranslationResult) : Nat :=
  (rs.filter (fun r => r.id == i && r.translated_text.isSome)).length

/-- When `nodes[id]` is a text node, a successful outcome overwrites exactly
that slot and increments `completed` — the `if let NodeData::Text` match of
the writer succeeds. -/
theorem writerStep_success {m : Nat} {st : WriterState} {i : Nat} {c s : String}
    (h : st.nodes.get? i = some (TNode.text c)) :
    writerStep m st ⟨i, some s⟩ =
      some ({ st with nodes := st.nodes.set i (TNode.text s),
                      completed := st.completed + 1 }, []) := by
  rw [writerStep]
  simp only []
  rw [h]

/-- A non-panicking writer step leaves `nodes[i]` unchanged unless the result
is a successful outcome for `i` itself. -/
theorem writerStep_nodes_unchanged {m : Nat} {st st' : WriterState}
    {jobs : List TranslationRequest} {r : TranslationResult} {i : Nat}
    (hstep : writerStep m st r = some (st', jobs))
    (hne : ¬(r.id = i ∧ r.translated_text.isSome = true)) :
    st'.nodes.get? i = st.nodes.get? i := by
  rw [writerStep] at hstep
  match hs : r.translated_text with
  | some s =>
    rw [hs] at hstep
    have hid : r.id ≠ i := fun hidEq => hne ⟨hidEq, by rw [hs]; rfl⟩
    match hn : st.nodes.get? r.id with
    | some (.text c) =>
      rw [hn] at hstep
      cases hstep
      exact List.get?_set_ne _ _ hid
    | some (.element nm cs) =>
      rw [hn] at hstep
      cases hstep
      rfl
    | some (.other cs) =>
      rw [hn] at hstep
      cases hstep
      rfl
    | none =>
      rw [hn] at hstep
      cases hstep
  | none =>
    rw [hs] at hstep
    match hk : st.retries.get? r.id with
    | none =>
      rw [hk] at hstep
      cases hstep
    | some k =>
      rw [hk] at hstep
      simp only [] at hstep
      by_cases hlt : k < m
      · rw [if_pos hlt] at hstep
        match ht : st.texts.get? r.id with
        | none =>
          rw [ht] at hstep
          cases hstep
        | some t =>
          rw [ht] at hstep
          cases hstep
          rfl
      · rw [if_neg hlt] at hstep
        cases hstep
        rfl

/-- If a delivery list contains no successful outcome for `i`, a complete,
non-panicking run of the writer loop over it leaves `nodes[i]` unchanged. -/
theorem writerRun_nodes_const {m tot i : Nat} :
    ∀ {rs : List TranslationResult} {st st' : WriterState},
      successCountFor i rs = 0 →
      (writerRun m tot st rs = .exited st' ∨ writerRun m tot st rs = .blocked st') →
      st'.nodes.get? i = st.nodes.get? i := by
  intro rs
  induction rs with
  | nil =>
    intro st st' _ hrun
    rcases hrun with h | h
    · rw [writerRun] at h
      cases h
    · rw [writerRun] at h
      cases h
      rfl
  | cons r rs ih =>
    intro st st' hcount hrun
    have hpred : (r.id == i && r.translated_text.isSome) = false := by
      by_contra hne
      have hT : (r.id == i && r.translated_text.isSome) = true := by
        revert hne
        cases (r.id == i && r.translated_text.isSome) <;> simp
      rw [successCountFor, List.filter_cons, if_pos hT] at hcount
      simp at hcount
    have hcount' : successCountFor i rs = 0 := by
      rw [successCountFor, List.filter_cons, if_neg (by rw [hpred]; simp)] at hcount
      exact hcount
    have hne : ¬(r.id = i ∧ r.translated_text.isSome = true) := by
      rintro ⟨h1, h2⟩
      rw [h1, h2] at hpred
      simp at hpred
    rcases hrun with h | h
    · rw [writerRun] at h
      match hstep : writerStep m st r with
      | none =>
        rw [hstep] at h
        cases h
      | some (st1, jobs) =>
        rw [hstep] at h
        simp only [] at h
        by_cases hdone : st1.completed = tot
        · rw [if_pos hdone] at h
          cases h
          exact writerStep_nodes_unchanged hstep hne
        · rw [if_neg hdone] at h
          rw [ih hcount' (Or.inl h), writerStep_nodes_unchanged hstep hne]
    · rw [writerRun] at h
      match hstep : writerStep m st r with
      | none =>
        rw [hstep] at h
        cases h
      | some (st1, jobs) =>
        rw [hstep] at h
        simp only [] at h
        by_cases hdone : st1.completed = tot
        · rw [if_pos hdone] at h
          cases h
        · rw [if_neg hdone] at h
          rw [ih hcount' (Or.inr h), writerStep_nodes_unchanged hstep hne]

/-- If at most one successful outcome for `i` is ever delivered, then at the
end of any complete, non-panicking run `nodes[i]` holds either its initial
value or the text of that single successful outcome. -/
theorem writer_at_most_one_write {m tot i : Nat} :
    ∀ {rs : List TranslationResult} {st st' : WriterState},
      successCountFor i rs ≤ 1 →
      (writerRun m tot st rs = .exited st' ∨ writerRun m tot st rs = .blocked st') →
      st'.nodes.get? i = st.nodes.get? i ∨
        ∃ s, (⟨i, some s⟩ : TranslationResult) ∈ rs ∧
          st'.nodes.get? i = some (TNode.text s) := by
  intro rs
  induction rs with
  | nil =>
    intro st st' _ hrun
    rcases hrun with h | h
    · rw [writerRun] at h
      cases h
    · rw [writerRun] at h
      cases h
      exact Or.inl rfl
  | cons r rs ih =>
    intro st st' hcount hrun
    have hstep_of : ∀ st1 jobs, writerStep m st r = some (st1, jobs) →
        (writerRun m tot st1 rs = .exited st' ∨ writerRun m tot st1 rs = .blocked st') ∨
          st' = st1 := by
      intro st1 jobs hstep
      rcases hrun with h | h
      · rw [writerRun, hstep] at h
        simp only [] at h
        by_cases hdone : st1.completed = tot
        · rw [if_pos hdone] at h
          cases h
          exact Or.inr rfl
        · rw [if_neg hdone] at h
          exact Or.inl (Or.inl h)
      · rw [writerRun, hstep] at h
        simp only [] at h
        by_cases hdone : st1.completed = tot
        · rw [if_pos hdone] at h
          cases h
        · rw [if_neg hdone] at h
          exact Or.inl (Or.inr h)
    have hnopanic : writerStep m st r ≠ none := by
      intro hstep
      rcases hrun with h | h <;> rw [writerRun, hstep] at h <;> cases h
    match hstep : writerStep m st r with
    | none => exact absurd hstep hnopanic
    | some (st1, jobs) =>
      by_cases hsucc : (r.id == i && r.translated_text.isSome) = true
      · -- the (single) successful outcome for i is at the head
        have hsucc2 : r.id = i ∧ r.translated_text.isSome = true := by simpa using hsucc
        obtain ⟨hid', hsome⟩ := hsucc2
        obtain ⟨s, hs⟩ := Option.isSome_iff_exists.mp hsome
        have hcount' : successCountFor i rs = 0 := by
          rw [successCountFor, List.filter_cons, if_pos hsucc, List.length_cons] at hcount
          rw [successCountFor]
          omega
        have hr : r = ⟨i, some s⟩ := by
          cases r
          simp only at hid' hs
          rw [hid', hs]
        subst hr
        have hred := hstep
        rw [writerStep] at hred
        simp only [] at hred
        match hn : st.nodes.get? i with
        | some (.text c) =>
          rw [hn] at hred
          have hx : st1 = { st with nodes := st.nodes.set i (TNode.text s),
                                    completed := st.completed + 1 } :=
            (congrArg Prod.fst (Option.some.inj hred)).symm
          have h1 : st1.nodes.get? i = some (TNode.text s) := by
            rw [hx]
            show (st.nodes.set i (TNode.text s)).get? i = some (TNode.text s)
            have hset := List.get?_set_eq (TNode.text s) i st.nodes
            rw [hn] at hset
            exact hset
          rcases hstep_of st1 jobs hstep with hrun' | rfl
          · right
            refine ⟨s, List.mem_cons_self _ _, ?_⟩
            rw [writerRun_nodes_const hcount' hrun', h1]
          · exact Or.inr ⟨s, List.mem_cons_self _ _, h1⟩
        | some (.element nm cs) =>
          rw [hn] at hred
          have hx : st1 = st := (congrArg Prod.fst (Option.some.inj hred)).symm
          rcases hstep_of st1 jobs hstep with hrun' | rfl
          · exact Or.inl (by rw [writerRun_nodes_const hcount' hrun', hx]; exact hn)
          · exact Or.inl (by rw [hx]; exact hn)
        | some (.other cs) =>
          rw [hn] at hred
          have hx : st1 = st := (congrArg Prod.fst (Option.some.inj hred)).symm
          rcases hstep_of st1 jobs hstep with hrun' | rfl
          · exact Or.inl (by rw [writerRun_nodes_const hcount' hrun', hx]; exact hn)
          · exact Or.inl (by rw [hx]; exact hn)
        | none =>
          rw [hn] at hred
          exact Option.noConfusion hred
      · -- head is not a successful outcome for i
        have hne : ¬(r.id = i ∧ r.translated_text.isSome = true) := by
          rintro ⟨h1, h2⟩
          exact hsucc (by rw [h1, h2]; simp)
        have hkeep : st1.nodes.get? i = st.nodes.get? i :=
          writerStep_nodes_unchanged hstep hne
        have hcount' : successCountFor i rs ≤ 1 := by
          rw [successCountFor, List.filter_cons, if_neg hsucc] at hcount
          exact hcount
        rcases hstep_of st1 jobs hstep with hrun' | rfl
        · rcases ih hcount' hrun' with h1 | ⟨s, hmem, h1⟩
          · exact Or.inl (by rw [h1, hkeep])
          · exact Or.inr ⟨s, List.mem_cons_of_mem _ hmem, h1⟩
        · exact Or.inl hkeep

/-! ## Helper lemmas about the weighted dispatch vector -/

/-- Every handle in a suffix of the balanced vector refers to a credential at
or beyond the suffix start. -/
theorem balancedFrom_mem_ge {total : Nat} :
    ∀ {caps : List Nat} {i x : Nat}, x ∈ balancedFrom total i caps → i ≤ x := by
  intro caps
  induction caps with
  | nil => intro i x hx; rw [balancedFrom] at hx; simp at hx
  | cons cap rest ih =>
    intro i x hx
    rw [balancedFrom, List.mem_append] at hx
    rcases hx with h | h
    · by_cases hc : 0 < cap
      · rw [if_pos hc] at h
        rw [List.eq_of_mem_replicate h]
      · rw [if_neg hc] at h
        simp at h
    · have := ih h
      omega

/-- The number of copies of the handle of the credential at position `i + j`
emitted by the balanced-vector loop started at position `i`. -/
theorem count_balancedFrom {total : Nat} :
    ∀ {caps : List Nat} {i j cap : Nat}, caps.get? j = some cap →
      (balancedFrom total i caps).count (i + j) =
        if 0 < cap then proportionOf cap total else 0 := by
  intro caps
  induction caps with
  | nil => intro i j cap h; simp at h
  | cons c rest ih =>
    intro i j cap h
    cases j with
    | zero =>
      have hc : c = cap := by simpa using h
      subst hc
      rw [balancedFrom, List.count_append, Nat.add_zero]
      have h2 : (balancedFrom total (i + 1) rest).count i = 0 := by
        rw [List.count_eq_zero]
        intro hmem
        have := balancedFrom_mem_ge hmem
        omega
      rw [h2, Nat.add_zero]
      by_cases hc : 0 < c
      · rw [if_pos hc, if_pos hc, List.count_replicate_self]
      · rw [if_neg hc, if_neg hc]
        rfl
    | succ j0 =>
      have h0 : rest.get? j0 = some cap := by simpa using h
      rw [balancedFrom, List.count_append]
      have h1 : ((if 0 < c then List.replicate (proportionOf c total) i else []) : List Nat).count
          (i + (j0 + 1)) = 0 := by
        rw [List.count_eq_zero]
        intro hmem
        by_cases hc : 0 < c
        · rw [if_pos hc] at hmem
          have := List.eq_of_mem_replicate hmem
          omega
        · rw [if_neg hc] at hmem
          simp at hmem
      rw [h1, Nat.zero_add]
      have heq : i + (j0 + 1) = (i + 1) + j0 := by omega
      rw [heq]
      exact ih h0

/-! ## Helper lemmas about the serializer fix-ups -/

/-- Consuming a literal from the front of a string that starts with it leaves
the rest. -/
theorem dropLit_append : ∀ (p s : List Char), dropLit p (p ++ s) = some s := by
  intro p
  induction p with
  | nil => intro s; rfl
  | cons c cs ih =>
    intro s
    rw [List.cons_append, dropLit, if_pos rfl]
    exact ih s

/-- Consuming a literal from itself leaves nothing. -/
theorem dropLit_self (p : List Char) : dropLit p p = some [] := by
  have h := dropLit_append p []
  rwa [List.append_nil] at h

/-- The forced lazy group: splitting at the first `>` of `run ++ rest` when
`run` has no `>` and `rest` is empty or starts with `>`. -/
theorem splitGt_append {run : List Char} (rest : List Char) (h : '>' ∉ run)
    (hrest : rest = [] ∨ ∃ xs, rest = '>' :: xs) :
    splitGt (run ++ rest) = (run, rest) := by
  induction run with
  | nil =>
    rcases hrest with rfl | ⟨xs, rfl⟩
    · rfl
    · rw [List.nil_append, splitGt, if_pos rfl]
  | cons c cs ih =>
    have hc : ¬ c = '>' := by
      intro hcEq
      exact h (by rw [hcEq]; exact List.mem_cons_self _ _)
    have hcs : '>' ∉ cs := fun hmem => h (List.mem_cons_of_mem _ hmem)
    rw [List.cons_append, splitGt, if_neg hc, ih hcs]

/-- `replace_all` of the empty string is empty. -/
theorem replaceAllAux_nil (step : List Char → Option (List Char × List Char)) :
    ∀ n, replaceAllAux step n [] = [] := by
  intro n
  cases n <;> rfl

/-- Unfolding one scan position at which the matcher fires. -/
theorem replaceAllAux_cons_fire {step : List Char → Option (List Char × List Char)}
    {c : Char} {cs repl rest : List Char} {fuel : Nat}
    (h : step (c :: cs) = some (repl, rest)) :
    replaceAllAux step (fuel + 1) (c :: cs) = repl ++ replaceAllAux step fuel rest := by
  rw [replaceAllAux, h]

/-- The void-element fix-up on one element written `<TAG attrs>` with no `>`
inside the attribute text: the tag gets closed with `/>` and nothing else
changes. -/
theorem replaceAll_voidStep (tag : String) {attrs : List Char} (h : '>' ∉ attrs) :
    replaceAll (voidStep tag.data) (('<' :: tag.data) ++ attrs ++ ['>']) =
      ('<' :: tag.data) ++ attrs ++ ['/', '>'] := by
  have hstep : voidStep tag.data ('<' :: (tag.data ++ (attrs ++ ['>']))) =
      some (('<' :: tag.data) ++ attrs ++ ['/', '>'], []) := by
    rw [voidStep,
      show ('<' :: (tag.data ++ (attrs ++ ['>']))) = ('<' :: tag.data) ++ (attrs ++ ['>']) from rfl,
      dropLit_append]
    simp only []
    rw [splitGt_append ['>'] h (Or.inr ⟨[], rfl⟩)]
    simp
  rw [replaceAll,
    show ('<' :: tag.data) ++ attrs ++ ['>'] = '<' :: (tag.data ++ (attrs ++ ['>'])) by simp,
    List.length_cons, replaceAllAux_cons_fire hstep, replaceAllAux_nil, List.append_nil]

/-- The empty-span fix-up on one empty span `<span attrs></span>` with no `>`
inside the attribute text: the pair collapses to the self-closing form. -/
theorem replaceAll_spanPairStep {attrs : List Char} (h : '>' ∉ attrs) :
    replaceAll spanPairStep ("<span".data ++ attrs ++ ['>'] ++ "</span>".data) =
      "<span".data ++ attrs ++ ['/', '>'] := by
  have hstep : spanPairStep ('<' :: ("span".data ++ (attrs ++ ('>' :: "</span>".data)))) =
      some ("<span".data ++ attrs ++ ['/', '>'], []) := by
    rw [spanPairStep,
      show ('<' :: ("span".data ++ (attrs ++ ('>' :: "</span>".data)))) =
        "<span".data ++ (attrs ++ ('>' :: "</span>".data)) from rfl,
      dropLit_append]
    simp only []
    rw [splitGt_append ('>' :: "</span>".data) h (Or.inr ⟨_, rfl⟩)]
    simp only []
    rw [dropLit_self]
  rw [replaceAll,
    show "<span".data ++ attrs ++ ['>'] ++ "</span>".data =
      '<' :: ("span".data ++ (attrs ++ ('>' :: "</span>".data))) by simp,
    List.length_cons, replaceAllAux_cons_fire hstep, replaceAllAux_nil, List.append_nil]

/-! ## The S4 scenario strings -/

/-- The S4 input fragment: a document fragment containing the self-closing
pagebreak span and an unclosed void `img` element. -/
def s4Input : String :=
  "<p><span epub:type=\"pagebreak\" id=\"pg5\"/><img alt=\"ima\" src=\"a.jpg\"></p>"

/-- Modelled from the spec: the output of the spec-compliant HTML serializer
(html5ever, an external crate whose code is not part of `src/`) on the parsed
S4 fragment.  Per the spec, the pre-parse rewrite expands the self-closing
span into an open/close pair precisely so that the parser keeps the element
and its attributes, and an HTML serializer emits the empty span back as an
open/close pair and the void `img` element as `<img …>` without a closing
slash — i.e. for this fragment the serializer output is exactly the
pre-parsed markup. -/
def s4SerializerOutput : String :=
  "<p><span epub:type=\"pagebreak\" id=\"pg5\"></span><img alt=\"ima\" src=\"a.jpg\"></p>"

/-- The S4 expected result: the self-closing span preserved, the `img`
closed. -/
def s4Expected : String :=
  "<p><span epub:type=\"pagebreak\" id=\"pg5\"/><img alt=\"ima\" src=\"a.jpg\"/></p>"

/-! ## The claims -/

/-- C1: the claim says that `zip_folder_to_epub` writes a present `mimetype`
entry first with Stored compression and permissions 0644, and every other
file with Deflate and 0755.  The code does nothing of the kind: it writes
every entry — `mimetype` included — in directory-walk order with the single
options value Deflate/0755.  Evaluated here on a walk that yields the root,
then `META-INF/container.xml`, then `mimetype`: the `mimetype` entry is
second, Deflated, 0755. -/
theorem claim_C1_bug :
    zipFolderToEpub [⟨"", false⟩, ⟨"META-INF/container.xml", true⟩, ⟨"mimetype", true⟩] =
      [⟨"META-INF/container.xml", false, epubZipOptions⟩,
       ⟨"mimetype", false, epubZipOptions⟩] ∧
    epubZipOptions.compression = CompressionMethod.deflated ∧
    epubZipOptions.unixPermissions = 0o755 ∧
    epubZipOptions ≠ ⟨CompressionMethod.stored, 0o644⟩ :=
  ⟨rfl, rfl, rfl, by decide⟩

/-- C2: the claim says `retries[id]` is incremented below `MAX_ATTEMPTS` (4)
and that indexing `retries` by id never faults.  The code allocates
`vec![0, total_nodes]` — the two-element vector `[0, total_nodes]` — so for
three text nodes a `Failed` outcome for id 2 indexes `retries[2]` out of
bounds and the writer panics. -/
theorem claim_C2_bug :
    retriesInit 3 = [0, 3] ∧
    (retriesInit 3).get? 2 = none ∧
    writerStep maxRetries
        ⟨[.text "a", .text "b", .text "c"], ["a", "b", "c"], retriesInit 3, 0⟩
        ⟨2, none⟩ = none :=
  ⟨rfl, rfl, rfl⟩

/-- C3: the claim says that for any number of nodes (including zero) and any
mix of outcomes the writer loop exits, exactly when `completed == total`.
On three nodes, a single `Failed` outcome for id 2 makes the run panic in the
retry bookkeeping instead of exiting; on zero nodes the loop blocks forever
on `recv()` because the break is only tested after a result arrives; a
successful run does exit at `completed == total`. -/
theorem claim_C3_bug :
    writerRun maxRetries 3
        ⟨[.text "a", .text "b", .text "c"], ["a", "b", "c"], retriesInit 3, 0⟩
        [⟨2, none⟩] = .panicked ∧
    writerRun maxRetries 0 ⟨[], [], retriesInit 0, 0⟩ [] =
      .blocked ⟨[], [], retriesInit 0, 0⟩ ∧
    writerRun maxRetries 1 ⟨[.text "x"], ["x"], retriesInit 1, 0⟩ [⟨0, some "y"⟩] =
      .exited ⟨[.text "y"], ["x"], retriesInit 1, 1⟩ :=
  ⟨rfl, rfl, rfl⟩

/-- C4: the claim says a decoded `/translate` response with an empty
`translations` array is reported to the pipeline as a `Failed` outcome, like
transport errors and malformed JSON.  In the code
`response.translations[0].text` panics on the empty vector, the worker task
aborts, and no outcome of any kind reaches the writer — unlike a fetch
error, which does produce the `Failed` outcome. -/
theorem claim_C4_bug :
    translationTaskOutcome 7 (.decoded ⟨[]⟩) = none ∧
    translationTaskOutcome 7 .fetchErr = some ⟨7, none⟩ ∧
    translationTaskOutcome 7 (.decoded ⟨[⟨"EN", "hola"⟩]⟩) = some ⟨7, some "hola"⟩ :=
  ⟨rfl, rfl, rfl⟩

/-- C5 counterexample: the claim says a second `Translated` outcome for an
already-written id is ignored, changing neither the node nor `completed`.
The writer has no such guard: starting from the state reached after the first
success for id 0 (node 0 holds "a", `completed` is 1), the duplicate outcome
`Translated(0, "b")` overwrites node 0 with "b" and bumps `completed` to 2,
and a full run over the duplicate stream exits with node 0 holding "b". -/
theorem claim_C5_counterexample :
    writerStep maxRetries ⟨[.text "a", .text "y"], ["x", "y"], retriesInit 2, 1⟩
        ⟨0, some "b"⟩ =
      some (⟨[.text "b", .text "y"], ["x", "y"], retriesInit 2, 2⟩, []) ∧
    writerRun maxRetries 2 ⟨[.text "x", .text "y"], ["x", "y"], retriesInit 2, 0⟩
        [⟨0, some "a"⟩, ⟨0, some "b"⟩] =
      .exited ⟨[.text "b", .text "y"], ["x", "y"], retriesInit 2, 2⟩ :=
  ⟨rfl, rfl⟩

/-- C5 (amended): the writer applies every successful outcome for a text node
unconditionally; each id is nevertheless written at most once on any delivery
stream that contains at most one successful outcome per id — which is what the
pipeline produces, since a fresh request for an id is only sent after a
`Failed` outcome — and then the final contents of `nodes[i]` are either its
initial value or the text of that single successful outcome. -/
theorem claim_C5 {m tot i : Nat} {rs : List TranslationResult} {st st' : WriterState}
    (hcount : successCountFor i rs ≤ 1)
    (hrun : writerRun m tot st rs = .exited st' ∨ writerRun m tot st rs = .blocked st') :
    st'.nodes.get? i = st.nodes.get? i ∨
      ∃ s, (⟨i, some s⟩ : TranslationResult) ∈ rs ∧
        st'.nodes.get? i = some (TNode.text s) :=
  writer_at_most_one_write hcount hrun

/-- C5 witness: a one-node run with a single successful outcome. -/
theorem claim_C5_witness :
    (⟨[TNode.text "z"], ["x"], retriesInit 1, 1⟩ : WriterState).nodes.get? 0 =
        (⟨[TNode.text "x"], ["x"], retriesInit 1, 0⟩ : WriterState).nodes.get? 0 ∨
      ∃ s, (⟨0, some s⟩ : TranslationResult) ∈ [(⟨0, some "z"⟩ : TranslationResult)] ∧
        (⟨[TNode.text "z"], ["x"], retriesInit 1, 1⟩ : WriterState).nodes.get? 0 =
          some (TNode.text s) :=
  @claim_C5 maxRetries 1 0 [⟨0, some "z"⟩]
    ⟨[TNode.text "x"], ["x"], retriesInit 1, 0⟩ ⟨[TNode.text "z"], ["x"], retriesInit 1, 1⟩
    (by decide) (Or.inl rfl)

/-- C6: for each retained credential (positive residual capacity), the
weighted dispatch vector contains exactly
`round(100 * residual / total)` copies of its handle, where `total` is the
sum of the retained residual capacities; shuffling — any permutation of the
vector — preserves those counts; and the dispatcher sends job id `n` to index
`n mod len`, which is always a valid index of the vector, the same one every
time id `n` comes around. -/
theorem claim_C6 (caps : List Nat) (j cap : Nat)
    (hj : caps.get? j = some cap) (hpos : 0 < cap) :
    (balancedVector caps).count j = proportionOf cap (totalCapacity caps) ∧
    (∀ v : List Nat, v.Perm (balancedVector caps) →
      v.count j = proportionOf cap (totalCapacity caps)) ∧
    (∀ len n : Nat, 0 < len → assignedConfigurationIndex len n < len) := by
  have hc := @count_balancedFrom (totalCapacity caps) caps 0 j cap hj
  rw [Nat.zero_add, if_pos hpos] at hc
  refine ⟨hc, ?_, ?_⟩
  · intro v hperm
    rw [hperm.count_eq, balancedVector, hc]
  · intro len n hlen
    exact Nat.mod_lt _ hlen

/-- C6 witness: two credentials with residual capacities 30000 and 70000. -/
theorem claim_C6_witness :
    (balancedVector [30000, 70000]).count 0 =
      proportionOf 30000 (totalCapacity [30000, 70000]) :=
  (claim_C6 [30000, 70000] 0 30000 rfl (by decide)).1

/-- C7 counterexample: the claim says every credential with residual capacity
of 20000 or more is retained; the filter `capacity > 20000` drops a
credential whose residual is exactly 20000. -/
theorem claim_C7_counterexample :
    (20000 : Nat) ≥ 20000 ∧ retainCredentials [⟨"key", 20000⟩] = [] :=
  ⟨le_refl _, rfl⟩

/-- C7 (amended): credential discovery drops exactly those credentials whose
residual capacity is 20000 characters or less: a credential is in the pool
iff it was discovered and its residual capacity strictly exceeds 20000. -/
theorem claim_C7 (creds : List Credential) (c : Credential) :
    c ∈ retainCredentials creds ↔ c ∈ creds ∧ 20000 < c.capacity := by
  rw [retainCredentials, List.mem_filter]
  simp

/-- C8: no descendant of a `style` element is ever enumerated: every path the
traversal yields addresses a text node — also returned by `getTextNodes` —
and no node along that path (so in particular no ancestor of the enumerated
text node) is a `style` element; hence no such node is ever dispatched or
mutated. -/
theorem claim_C8 (t : TNode) (p : List Nat) (hp : p ∈ textPaths t) :
    (∃ s, nodeAt p t = some (TNode.text s) ∧ TNode.text s ∈ getTextNodes t) ∧
    (∀ q r m, p = q ++ r → nodeAt q t = some m → isStyle m = false) :=
  textPaths_spec t p hp

/-- C8 witness: a body with a style element (whose text child is skipped) and
a paragraph; the single enumerated path is the paragraph text, and the
ancestor at the path head is not a style element. -/
theorem claim_C8_witness :
    (∃ s, nodeAt [1, 0]
        (TNode.element "body"
          [TNode.element "style" [TNode.text "css"],
           TNode.element "p" [TNode.text "hi"]]) = some (TNode.text s) ∧
      TNode.text s ∈ getTextNodes
        (TNode.element "body"
          [TNode.element "style" [TNode.text "css"],
           TNode.element "p" [TNode.text "hi"]])) ∧
    isStyle (TNode.element "p" [TNode.text "hi"]) = false := by
  have h := claim_C8
    (TNode.element "body"
      [TNode.element "style" [TNode.text "css"],
       TNode.element "p" [TNode.text "hi"]]) [1, 0]
    (by rw [show textPaths
        (TNode.element "body"
          [TNode.element "style" [TNode.text "css"],
           TNode.element "p" [TNode.text "hi"]]) = [[1, 0]] from rfl]
        exact List.mem_singleton_self _)
  exact ⟨h.1, h.2 [1] [0] (TNode.element "p" [TNode.text "hi"]) rfl rfl⟩

/-- C9: the serializer fix-ups produce the three listed XHTML shapes — each
void element in `self_closing_tags` written `<elt attrs>` becomes
`<elt attrs/>`; every `&nbsp;` entity becomes a literal U+00A0; an empty span
`<span attrs></span>` becomes `<span attrs/>` — and on the S4 fragment the
pre-parse rewrite followed by the (spec-modelled) HTML serializer and the
fix-ups yields, byte for byte, the self-closing span preserved and the img
closed. -/
theorem claim_C9 :
    (∀ tag ∈ selfClosingTags, ∀ attrs : List Char, '>' ∉ attrs →
      replaceAll (voidStep tag.data) (('<' :: tag.data) ++ attrs ++ ['>']) =
        ('<' :: tag.data) ++ attrs ++ ['/', '>']) ∧
    serializeFixups "a&nbsp;&nbsp;b" = "a\u00A0\u00A0b" ∧
    (∀ attrs : List Char, '>' ∉ attrs →
      replaceAll spanPairStep ("<span".data ++ attrs ++ ['>'] ++ "</span>".data) =
        "<span".data ++ attrs ++ ['/', '>']) ∧
    preParseSpanRewrite s4Input = s4SerializerOutput ∧
    serializeFixups s4SerializerOutput = s4Expected :=
  ⟨fun tag _ _ h => replaceAll_voidStep tag h, rfl,
   fun _ h => replaceAll_spanPairStep h, rfl, rfl⟩

/-- C9 witness: the img element of S4 and a pagebreak span, concretely. -/
theorem claim_C9_witness :
    replaceAll (voidStep "img".data)
        (('<' :: "img".data) ++ " src=\"a.jpg\"".data ++ ['>']) =
      ('<' :: "img".data) ++ " src=\"a.jpg\"".data ++ ['/', '>'] ∧
    replaceAll spanPairStep
        ("<span".data ++ " id=\"pg5\"".data ++ ['>'] ++ "</span>".data) =
      "<span".data ++ " id=\"pg5\"".data ++ ['/', '>'] :=
  ⟨claim_C9.1 "img" (by decide) _ (by decide),
   claim_C9.2.2.1 _ (by decide)⟩

/-- C10: every handle returned by `get_text_nodes` is a text node;
consequently the snapshot `texts_enumerated[i]` equals the contents of
`nodes[i]` whenever `nodes[i]` is a text node (the empty-string fallback is
unreachable for vectors built from `get_text_nodes`), and the writer's
`NodeData::Text` match succeeds on every successful outcome for such a
vector, overwriting the node and incrementing `completed`. -/
theorem claim_C10 :
    (∀ t : TNode, ∀ n ∈ getTextNodes t, ∃ s, n = TNode.text s) ∧
    (∀ (nodes : List TNode) (i : Nat) (s : String),
      nodes.get? i = some (TNode.text s) → (textsEnumerated nodes).get? i = some s) ∧
    (∀ (m : Nat) (st : WriterState) (i : Nat) (c s : String),
      st.nodes.get? i = some (TNode.text c) →
      writerStep m st ⟨i, some s⟩ =
        some ({ st with nodes := st.nodes.set i (TNode.text s),
                        completed := st.completed + 1 }, [])) := by
  refine ⟨getTextNodes_isText, ?_, ?_⟩
  · intro nodes i s h
    rw [textsEnumerated, List.get?_map, h]
    rfl
  · intro m st i c s h
    exact writerStep_success h

/-- C10 witness: a one-node vector built from a paragraph. -/
theorem claim_C10_witness :
    (∃ s, TNode.text "hi" = TNode.text s) ∧
    (textsEnumerated [TNode.text "hi"]).get? 0 = some "hi" ∧
    writerStep maxRetries ⟨[TNode.text "hi"], ["hi"], retriesInit 1, 0⟩ ⟨0, some "z"⟩ =
      some (⟨[TNode.text "z"], ["hi"], retriesInit 1, 1⟩, []) := by
  refine ⟨?_, claim_C10.2.1 [TNode.text "hi"] 0 "hi" rfl, ?_⟩
  · refine claim_C10.1 (TNode.element "p" [TNode.text "hi"]) (TNode.text "hi") ?_
    rw [show getTextNodes (TNode.element "p" [TNode.text "hi"]) = [TNode.text "hi"] from rfl]
    exact List.mem_singleton_self _
  · exact claim_C10.2.2 maxRetries ⟨[TNode.text "hi"], ["hi"], retriesInit 1, 0⟩ 0 "hi" "z" rfl

end EpubTranslator
